import Mathlib

/-!
# Verification of the schema-to-SQL mapping layer (`base.py`)

A shallow embedding of the ORM core: column types, fields, entity schemas,
and the query builder (`create_table` fragments, `save`, `update`, `filter`,
`join`, `get`, `delete`).  Python values are modelled by `PyVal` (with
Python truthiness and `str()` rendering), Python `dict`s by ordered
association lists, and exceptions by `Except`.
-/

namespace Orm

/-- A Python runtime value, as far as the query builder inspects one:
`None`, booleans, integers and strings.  Covers every value the layer
ever serializes. -/
inductive PyVal where
  | none
  | bool (b : Bool)
  | int (n : Int)
  | str (s : String)
deriving DecidableEq, Repr

/-- Python truthiness of a `PyVal` (`bool(v)`). -/
def PyVal.truthy : PyVal → Bool
  | .none => false
  | .bool b => b
  | .int n => n != 0
  | .str s => s != ""

/-- Python `str(v)` / f-string interpolation of a `PyVal`. -/
def PyVal.pyStr : PyVal → String
  | .none => "None"
  | .bool b => if b then "True" else "False"
  | .int n => toString n
  | .str s => s

/-- A column type: the classes `Integer` and `String(length)` of `base.py`
(`String`'s length defaults to 100 at its construction sites). -/
inductive ColType where
  | integer
  | varchar (length : Nat)
deriving DecidableEq, Repr

/-- `str()` of a column type: `MetaType.__str__` yields the class name
`"Integer"`; `String.__str__` yields `f'Varchar({self.length})'`. -/
def ColType.render : ColType → String
  | .integer => "Integer"
  | .varchar length => "Varchar(" ++ toString length ++ ")"

/-- A declared `Field`: its constraint data as stored by `Field.__init__`.
A foreign reference is identified by the referenced field's owner table
name and column name (in the source it is the referenced `Field` object;
`ownerSchema`/`columnName` resolve it to exactly this pair). -/
structure Field where
  type : ColType
  primary : Bool := false
  autoincrement : Bool := false
  not_null : Bool := true
  foreign : Option (String × String) := none
  default_value : PyVal := .none
deriving DecidableEq, Repr

/-- `Field.__init__`: raises `Exception('Please, specify type of column')`
when `type` is absent (`None`), otherwise stores the arguments.  The flag
defaults mirror the Python keyword defaults. -/
def Field.make (type : Option ColType := Option.none) (primary : Bool := false)
    (autoincrement : Bool := false) (not_null : Bool := true)
    (foreign : Option (String × String) := Option.none)
    (default_value : PyVal := PyVal.none) : Except String Field :=
  match type with
  | Option.none => .error "Please, specify type of column"
  | Option.some t =>
      .ok { type := t, primary := primary, autoincrement := autoincrement,
            not_null := not_null, foreign := foreign, default_value := default_value }

/-- `Field.value` (classmethod): `val or 'NULL'` — the value itself when
truthy, the string `'NULL'` otherwise. -/
def Field.value (val : PyVal) : PyVal :=
  if val.truthy then val else .str "NULL"

/-- `Field.definition`: `_template_definition.format(**self._definition_dict)`
for the template `'{type} {not_null} {primary_key} {autoincrement}'`.
Unset flags substitute the empty string, keeping the template's separating
spaces. -/
def Field.definition (f : Field) : String :=
  f.type.render ++ " " ++ (if f.not_null then "NOT NULL" else "") ++ " " ++
    (if f.primary then "PRIMARY KEY" else "") ++ " " ++
    (if f.autoincrement then "AUTOINCREMENT" else "")

/-- `Field.foreign_key_definition`: when a foreign reference is present,
`'FOREIGN KEY ({self_name}) references {table}({field})'`; otherwise the
method falls through and returns `None`.  `name` is the field's column
name in its owner schema (`self.name`). -/
def Field.foreign_key_definition (name : String) (f : Field) : Option String :=
  match f.foreign with
  | Option.some (table, fld) =>
      Option.some ("FOREIGN KEY (" ++ name ++ ") references " ++ table ++ "(" ++ fld ++ ")")
  | Option.none => Option.none

/-- An entity schema class: `__tablename__` plus the declared `Field`s of
the class `__dict__` in declaration order, each paired with its attribute
name (`get_fields`). -/
structure Schema where
  tablename : String
  fields : List (String × Field)
deriving DecidableEq, Repr

/-- Does field `f` carry a foreign reference into table `t`
(`field.foreign and field.foreign.table_class is table`, with the
identity test on the owner class rendered as its table name)? -/
def Field.refsTable (f : Field) (t : String) : Bool :=
  match f.foreign with
  | Option.some (table, _) => table == t
  | Option.none => false

/-- The `_fk` back-reference of the field named `fname` of table `tname`:
`MetaBase.__init__` runs at each class declaration and, for every declared
field carrying `foreign`, assigns the *referenced* field's `_fk` to the
declaring class; a later declaration overwrites an earlier one.  `db` is
the list of declared schema classes in declaration order, so `_fk` is the
last schema in `db` having a field that references `(tname, fname)`. -/
def fkOf (db : List Schema) (tname fname : String) : Option Schema :=
  (db.filter (fun c =>
    c.fields.any (fun nf => nf.2.foreign == Option.some (tname, fname)))).getLast?

/-- `Base.get_foreign_field_by_table`: the first declared field of `c`
whose foreign reference points into table `tname`, with its name. -/
def Schema.get_foreign_field_by_table (c : Schema) (tname : String) :
    Option (String × Field) :=
  c.fields.find? (fun nf => nf.2.refsTable tname)

/-- `Base.get_field_definitions`: the loop accumulates
`f'{name} {field.definition}, '` per field, then slices off the final two
characters (`definitions_str[:-2]`).  The Python slice is modelled
character-exactly by dropping the last two elements of the string's
character data. -/
def Schema.get_field_definitions (s : Schema) : String :=
  String.mk (s.fields.foldl
    (fun acc nf => acc ++ nf.1 ++ " " ++ nf.2.definition ++ ", ") "").data.dropLast.dropLast

/-- One iteration of the `Base.get_keys` loop: append
`f', {field.foreign_key_definition}'` when the field's foreign-key
definition is truthy (a rendered definition is a non-empty string,
`None` is falsy), else leave the accumulator alone. -/
def keysStep (acc : String) (nf : String × Field) : String :=
  match Field.foreign_key_definition nf.1 nf.2 with
  | Option.some d => acc ++ ", " ++ d
  | Option.none => acc

/-- `Base.get_keys`: the accumulation loop over the declared fields. -/
def Schema.get_keys (s : Schema) : String :=
  s.fields.foldl keysStep ""

/-- A join descriptor, the dictionary yielded by `Base.join`. -/
structure JoinDesc where
  fk_table : String
  fk : String
  pk_table : String
  pk : String
deriving DecidableEq, Repr

/-- `Base.join`: for every declared field of `cls` whose `_fk` is set (a
class object, hence truthy; `field.table_class == cls` holds for every
field of the class `__dict__`), yield the descriptor pairing the
referencing schema's table and referencing column against `cls`'s table
and the field's own name.  When `fkOf` succeeds, the referencing schema
necessarily contains a field referencing `cls`, so the inner lookup
succeeds. -/
def joinStep (db : List Schema) (cls : Schema) (nf : String × Field) :
    Option JoinDesc :=
  match fkOf db cls.tablename nf.1 with
  | Option.some fkT =>
      match fkT.get_foreign_field_by_table cls.tablename with
      | Option.some (fkName, _) =>
          Option.some ⟨fkT.tablename, fkName, cls.tablename, nf.1⟩
      | Option.none => Option.none
  | Option.none => Option.none

/-- The full `Base.join` generator, one descriptor per qualifying field. -/
def Schema.join (db : List Schema) (cls : Schema) : List JoinDesc :=
  cls.fields.filterMap (joinStep db cls)

/-- Lookup of a declared `Field` by attribute name in the class `__dict__`
(`cls.__dict__.get(key)` restricted to the `Field`-valued entries). -/
def Schema.fieldByName (s : Schema) (k : String) : Option Field :=
  (s.fields.find? (fun nf => nf.1 == k)).map Prod.snd

/-- A runtime Python error kind the layer can raise. -/
inductive PyError where
  | nameError
  | attributeError
  | unboundLocalError
deriving DecidableEq, Repr

/-- An entity instance's `__dict__`: an insertion-ordered association of
attribute names to values. -/
abbrev Inst := List (String × PyVal)

/-- Python `dict` lookup (`d.get(k)`) on an ordered association list. -/
def pyGet (d : Inst) (k : String) : Option PyVal :=
  (d.find? (fun p => p.1 == k)).map Prod.snd

/-- Python `setattr`/`d[k] = v` on an ordered association list: an existing
key keeps its position and takes the new value, a fresh key is appended. -/
def setAttr (d : Inst) (k : String) (v : PyVal) : Inst :=
  if d.any (fun p => p.1 == k) then
    d.map (fun p => if p.1 == k then (k, v) else p)
  else
    d ++ [(k, v)]

/-- `Base.__init__`: for every declared field, in declaration order, set the
instance attribute to `kwargs.get(field_name, field_instance.default_value)`. -/
def initInstance (s : Schema) (kwargs : Inst) : Inst :=
  s.fields.map (fun nf => (nf.1, (pyGet kwargs nf.1).getD nf.2.default_value))

/-- The value rendering of `Base.save`:
`f'"{value}"' if value else 'NULL'` — a truthy value is interpolated
inside double quotes, a falsy value becomes the bare token `NULL`. -/
def renderInsertValue (v : PyVal) : String :=
  if v.truthy then "\"" ++ v.pyStr ++ "\"" else "NULL"

/-- The INSERT statement `Base.save` renders:
`_insert_template = 'insert into {table}({fields}) values ({values})'`,
fields from the instance `__dict__` keys, values from its values. -/
def insertQuery (s : Schema) (inst : Inst) : String :=
  "insert into " ++ s.tablename ++ "(" ++
    String.intercalate ", " (inst.map Prod.fst) ++ ") values (" ++
    String.intercalate ", " (inst.map (fun p => renderInsertValue p.2)) ++ ")"

/-- `Base.save`: renders the INSERT, then executes and commits inside
`try/except` (printing and returning on failure, leaving the instance
untouched); on success, writes `cursor.lastrowid` onto every declared
primary field of the instance.  The adapter outcome of
execute + commit + `lastrowid` is a parameter; the result is the rendered
statement together with the instance's `__dict__` after the call.  (The
diagnostic `print` is outside the embedding.) -/
def save (s : Schema) (inst : Inst) (adapter : Except String Int) :
    String × Inst :=
  let query := insertQuery s inst
  match adapter with
  | .error _ => (query, inst)
  | .ok last_id =>
      (query,
       s.fields.foldl
         (fun i nf => if nf.2.primary then setAttr i nf.1 (.int last_id) else i)
         inst)

/-- The mutable class-level state of a schema class: the schema itself plus
`_filter_str` (class attribute, default `''`). -/
structure ClassState where
  schema : Schema
  filter_str : String := ""
deriving DecidableEq, Repr

/-- `Base.filter` (classmethod): `cls._filter_str = str(condition)`, then
`return cls`. -/
def filter (st : ClassState) (condition : PyVal) : ClassState :=
  { st with filter_str := condition.pyStr }

/-- `Base.update`: the dict comprehension
`{key: cls.__dict__.get(key).__class__.value(value) ...}` looks each
keyword up in the class `__dict__`; a key that does not name a declared
`Field` yields an object without a `value` classmethod (or `None`), so the
comprehension raises `AttributeError` before any rendering.  Otherwise the
statement `'update {table} set {values}'` is rendered with every
assignment as `f'{field} = "{value}"'` — the normalized value is
interpolated inside double quotes unconditionally.  Execution and commit
are wrapped in `try/except` (report and fall through), and the method
returns `cls`; the result pairs the rendered statement with the returned
class state.  `updateValue` is the comprehension's per-keyword step. -/
def updateValue (s : Schema) (kv : String × PyVal) :
    Except PyError (String × String) :=
  match s.fieldByName kv.1 with
  | Option.some _ => Except.ok (kv.1, (Field.value kv.2).pyStr)
  | Option.none => Except.error PyError.attributeError

/-- `Base.update` (see the comment on `updateValue`): evaluate the
comprehension over all keywords, then render
`'update {table} set {values}'` and return `cls`. -/
def update (st : ClassState) (kwargs : Inst) :
    Except PyError (String × ClassState) :=
  match kwargs.mapM (updateValue st.schema) with
  | .error e => .error e
  | .ok fields =>
      .ok ("update " ++ st.schema.tablename ++ " set " ++
             String.intercalate ", "
               (fields.map (fun p => p.1 ++ " = \"" ++ p.2 ++ "\"")),
           st)

/-- `Base.delete`: its first statement reads `_delete_template` as a bare
name.  `_delete_template` is a class attribute, not a module-level global,
and class-body names are not in scope of a method, so the lookup fails and
the call raises `NameError` before any statement text is rendered or
executed. -/
def delete (_cls : Schema) : Except PyError String :=
  .error .nameError

/-- Python `dict.update` on ordered `(name, alias)` association lists:
keys already in `base` keep their position and take `upd`'s value, fresh
keys of `upd` are appended in `upd`'s order. -/
def dictUpdate (base upd : List (String × String)) : List (String × String) :=
  base.map (fun p =>
    match upd.find? (fun q => q.1 == p.1) with
    | Option.some q => q
    | Option.none => p) ++
  upd.filter (fun q => !(base.any (fun p => p.1 == q.1)))

/-- `Base.get`: the loop rebinds the locals `fk_table`/`fk_fields` for every
declared field whose `_fk` is set (last one wins); when no field qualifies,
the following `print(fk_table)` reads a never-assigned local and raises
`UnboundLocalError` before any statement is rendered.  Otherwise the
column dict of `cls` is `dict.update`d with the referencing schema's,
filtered down to `args` when that filter is non-empty, each column aliased
via `as_name` (`f'{tablename}_{name}'` of its owner), and
`'select {fields} from {table} {joins}'` is rendered with the
`left join` clauses from `Base.join`.  Execution is wrapped in
`try/except`; the rendered statement is the result. -/
def get (db : List Schema) (cls : Schema) (args : List String) :
    Except PyError String :=
  match (cls.fields.filterMap (fun nf => fkOf db cls.tablename nf.1)).getLast? with
  | Option.none => .error .unboundLocalError
  | Option.some fk_table =>
      let fk_fields := fk_table.fields.map
        (fun nf => (nf.1, fk_table.tablename ++ "_" ++ nf.1))
      let own_fields := cls.fields.map
        (fun nf => (nf.1, cls.tablename ++ "_" ++ nf.1))
      let all_fields := dictUpdate own_fields fk_fields
      let chosen := all_fields.filter (fun p => args.contains p.1)
      let fields := if chosen.isEmpty then all_fields else chosen
      .ok ("select " ++
        String.intercalate ", " (fields.map (fun p => p.1 ++ " as " ++ p.2)) ++
        " from " ++ cls.tablename ++ " " ++
        String.intercalate " " ((Schema.join db cls).map (fun j =>
          "left join " ++ j.fk_table ++ " on " ++ j.fk_table ++ "." ++ j.fk ++
            " = " ++ j.pk_table ++ "." ++ j.pk)))

/-! ## The demo schemas of `test.py`

`User(id, name, email)` and `Post(id, user_id → users.id, post)`, used as
concrete witnesses below. -/

/-- The `User` schema of `test.py`. -/
def users : Schema :=
  { tablename := "users",
    fields :=
      [("id", { type := .integer, primary := true, autoincrement := true }),
       ("name", { type := .varchar 100 }),
       ("email", { type := .varchar 100 })] }

/-- The `Post` schema of `test.py`. -/
def posts : Schema :=
  { tablename := "posts",
    fields :=
      [("id", { type := .integer, primary := true, autoincrement := true }),
       ("user_id", { type := .integer, foreign := Option.some ("users", "id") }),
       ("post", { type := .varchar 100, not_null := false })] }

/-- The declared classes of the demo, in declaration order. -/
def demoDb : List Schema := [users, posts]

/-! ## Helper lemmas -/

/-- Dropping the final two characters of `x ++ ", "` recovers `x`
(the `[:-2]` slice undoes the trailing separator). -/
theorem mk_data_dropLast_dropLast (x : String) :
    String.mk ((x ++ ", ").data.dropLast.dropLast) = x := by
  have h : (x ++ ", ").data = (x.data ++ [',']) ++ [' '] := by
    rw [String.data_append]; simp
  rw [h, List.dropLast_concat, List.dropLast_concat]

/-- The keyword-processing comprehension of `update` either raises
`AttributeError` (some keyword does not name a declared field) or
normalizes every keyword's value with `Field.value`. -/
theorem update_mapM_spec (s : Schema) (kwargs : Inst) :
    kwargs.mapM (updateValue s) = Except.error PyError.attributeError
    ∨ kwargs.mapM (updateValue s)
      = Except.ok (kwargs.map (fun kv => (kv.1, (Field.value kv.2).pyStr))) := by
  induction kwargs with
  | nil => right; rfl
  | cons kv t ih =>
      cases hf : s.fieldByName kv.1 with
      | none =>
          left
          have hv : updateValue s kv = Except.error PyError.attributeError := by
            unfold updateValue; rw [hf]
          rw [List.mapM_cons, hv]; rfl
      | some fld =>
          have hv : updateValue s kv
              = Except.ok (kv.1, (Field.value kv.2).pyStr) := by
            unfold updateValue; rw [hf]
          cases ih with
          | inl h => left; rw [List.mapM_cons, hv, h]; rfl
          | inr h => right; rw [List.mapM_cons, hv, h]; rfl

/-- `update` either raises `AttributeError` or returns the statement
`update <table> set <comma-joined assignments>` together with the class
object it was called on, every assignment rendered as
`<field> = "<normalized value>"`. -/
theorem update_spec (st : ClassState) (kwargs : Inst) :
    update st kwargs = Except.error PyError.attributeError
    ∨ update st kwargs = Except.ok
        ("update " ++ st.schema.tablename ++ " set " ++
          String.intercalate ", " (kwargs.map (fun kv =>
            kv.1 ++ " = \"" ++ (Field.value kv.2).pyStr ++ "\"")), st) := by
  cases update_mapM_spec st.schema kwargs with
  | inl h => left; unfold update; rw [h]
  | inr h =>
      right
      unfold update
      rw [h]
      simp only [List.map_map]
      rfl

/-- The statement text `update` renders depends on the class state only
through its schema. -/
theorem update_fst_schema_eq (st1 st2 : ClassState) (kwargs : Inst)
    (h : st1.schema = st2.schema) :
    (update st1 kwargs).map Prod.fst = (update st2 kwargs).map Prod.fst := by
  cases update_mapM_spec st2.schema kwargs with
  | inl hm => unfold update; rw [h, hm]
  | inr hm => unfold update; rw [h, hm]; rfl

/-- Any fold of `filter` calls leaves the schema component unchanged. -/
theorem foldl_filter_schema (conds : List PyVal) (st : ClassState) :
    (conds.foldl filter st).schema = st.schema := by
  induction conds generalizing st with
  | nil => rfl
  | cons c t ih => exact ih (filter st c)

/-- The rendered statement of `save` is the INSERT text whatever the
adapter outcome. -/
theorem save_fst (s : Schema) (inst : Inst) (a : Except String Int) :
    (save s inst a).1 = insertQuery s inst := by
  cases a <;> rfl

/-- In the overwrite branch of `setAttr`, the key reads back as the new
value. -/
theorem find?_map_subst_self (d : Inst) (k : String) (v : PyVal)
    (h : d.any (fun p => p.1 == k) = true) :
    (d.map (fun p => if p.1 == k then (k, v) else p)).find?
        (fun p => p.1 == k) = Option.some (k, v) := by
  induction d with
  | nil => simp at h
  | cons p t ih =>
      cases hpk : (p.1 == k) with
      | true =>
          simp only [List.map_cons, hpk, if_true]
          exact List.find?_cons_of_pos _ (by simp)
      | false =>
          have ht : t.any (fun p => p.1 == k) = true := by
            simpa [List.any_cons, hpk] using h
          simp only [List.map_cons, hpk, if_false]
          rw [List.find?_cons_of_neg _ (by simp [hpk])]
          exact ih ht

/-- In the append branch of `setAttr`, the fresh key reads back as the
appended value. -/
theorem find?_append_self (d : Inst) (k : String) (v : PyVal)
    (h : d.any (fun p => p.1 == k) = false) :
    (d ++ [(k, v)]).find? (fun p => p.1 == k) = Option.some (k, v) := by
  induction d with
  | nil => exact List.find?_cons_of_pos _ (by simp)
  | cons p t ih =>
      rw [List.any_cons, Bool.or_eq_false_iff] at h
      rw [List.cons_append, List.find?_cons_of_neg _ (by simp [h.1])]
      exact ih h.2

/-- Writing attribute `k` makes `k` read back as the written value. -/
theorem pyGet_setAttr_self (d : Inst) (k : String) (v : PyVal) :
    pyGet (setAttr d k v) k = Option.some v := by
  unfold setAttr pyGet
  cases h : d.any (fun p => p.1 == k) with
  | true =>
      rw [if_pos rfl, find?_map_subst_self d k v h]
      rfl
  | false =>
      rw [if_neg (by simp), find?_append_self d k v h]
      rfl

/-- Writing attribute `k` leaves the lookup of any other key unchanged. -/
theorem pyGet_setAttr_of_ne (d : Inst) (k k' : String) (v : PyVal)
    (h : k' ≠ k) :
    pyGet (setAttr d k v) k' = pyGet d k' := by
  have hkk' : (k == k') = false := by simp [Ne.symm h]
  unfold setAttr pyGet
  cases ha : d.any (fun p => p.1 == k) with
  | true =>
      rw [if_pos rfl]
      clear ha
      induction d with
      | nil => rfl
      | cons p t ih =>
          cases hpk : (p.1 == k) with
          | true =>
              have hp1 : p.1 = k := by simpa using hpk
              have hpk' : (p.1 == k') = false := by simp [hp1, Ne.symm h]
              simp only [List.map_cons, hpk, if_true]
              rw [List.find?_cons_of_neg _ (by simp [hkk']),
                List.find?_cons_of_neg _ (by simp [hpk'])]
              exact ih
          | false =>
              simp only [List.map_cons, hpk]
              cases hpk' : (p.1 == k') with
              | true =>
                  rw [List.find?_cons_of_pos _ (by simp [hpk', hpk]),
                    List.find?_cons_of_pos _ (by simp [hpk'])]
                  simp
              | false =>
                  rw [List.find?_cons_of_neg _ (by simp [hpk', hpk]),
                    List.find?_cons_of_neg _ (by simp [hpk'])]
                  exact ih
  | false =>
      rw [if_neg (by simp)]
      clear ha
      induction d with
      | nil =>
          rw [List.nil_append,
            List.find?_cons_of_neg _ (by simp [hkk'])]
      | cons p t ih =>
          cases hpk' : (p.1 == k') with
          | true =>
              rw [List.cons_append, List.find?_cons_of_pos _ (by simp [hpk']),
                List.find?_cons_of_pos _ (by simp [hpk'])]
          | false =>
              rw [List.cons_append, List.find?_cons_of_neg _ (by simp [hpk']),
                List.find?_cons_of_neg _ (by simp [hpk'])]
              exact ih

/-- Once an attribute holds the last-insert id, the remaining primary-key
write-back steps keep it there. -/
theorem pyGet_pk_foldl_preserved (lid : Int) (l : List (String × Field))
    (d : Inst) (n : String)
    (h : pyGet d n = Option.some (PyVal.int lid)) :
    pyGet (l.foldl
        (fun i nf => if nf.2.primary then setAttr i nf.1 (PyVal.int lid) else i)
        d) n = Option.some (PyVal.int lid) := by
  induction l generalizing d with
  | nil => exact h
  | cons nf t ih =>
      rw [List.foldl_cons]
      apply ih
      by_cases hp : nf.2.primary
      · rw [if_pos hp]
        by_cases hk : nf.1 = n
        · rw [hk, pyGet_setAttr_self]
        · rw [pyGet_setAttr_of_ne _ _ _ _ (fun hc => hk hc.symm)]
          exact h
      · rw [if_neg hp]
        exact h

/-- After the primary-key write-back fold, every declared primary field
name reads back as the last-insert id. -/
theorem pyGet_pk_foldl (lid : Int) (l : List (String × Field)) (d : Inst)
    (n : String) (f : Field) (hmem : (n, f) ∈ l) (hp : f.primary = true) :
    pyGet (l.foldl
        (fun i nf => if nf.2.primary then setAttr i nf.1 (PyVal.int lid) else i)
        d) n = Option.some (PyVal.int lid) := by
  induction l generalizing d with
  | nil => cases hmem
  | cons nf t ih =>
      rw [List.foldl_cons]
      rcases List.mem_cons.mp hmem with heq | hmem'
      · rw [← heq]
        apply pyGet_pk_foldl_preserved
        rw [show ((n, f).2).primary = true from hp, if_pos rfl,
          pyGet_setAttr_self]
      · exact ih _ hmem'

/-- Reading `keysStep` at a field with a rendered definition. -/
theorem keysStep_some (acc : String) (nf : String × Field) (d : String)
    (hd : Field.foreign_key_definition nf.1 nf.2 = Option.some d) :
    keysStep acc nf = acc ++ ", " ++ d := by
  unfold keysStep; rw [hd]

/-- Reading `keysStep` at a field without a foreign reference. -/
theorem keysStep_none (acc : String) (nf : String × Field)
    (hd : Field.foreign_key_definition nf.1 nf.2 = Option.none) :
    keysStep acc nf = acc := by
  unfold keysStep; rw [hd]

/-- The `get_keys` loop is a homomorphism in its accumulator. -/
theorem keys_foldl_hom (l : List (String × Field)) :
    ∀ acc : String, l.foldl keysStep acc = acc ++ l.foldl keysStep "" := by
  induction l with
  | nil => intro acc; simp
  | cons nf t ih =>
      intro acc
      rw [List.foldl_cons, List.foldl_cons, ih (keysStep acc nf),
        ih (keysStep "" nf)]
      cases hd : Field.foreign_key_definition nf.1 nf.2 with
      | none =>
          rw [keysStep_none _ _ hd, keysStep_none _ _ hd]
          apply String.ext
          simp [String.data_append]
      | some d =>
          rw [keysStep_some _ _ _ hd, keysStep_some _ _ _ hd]
          apply String.ext
          simp [String.data_append]

/-- A plain-append fold is a homomorphism in its accumulator. -/
theorem string_foldl_append_hom (xs : List String) :
    ∀ acc : String,
      xs.foldl (fun r s => r ++ s) acc = acc ++ xs.foldl (fun r s => r ++ s) "" := by
  induction xs with
  | nil => intro acc; simp
  | cons x t ih =>
      intro acc
      rw [List.foldl_cons, List.foldl_cons, ih (acc ++ x), ih ("" ++ x)]
      apply String.ext
      simp [String.data_append]

/-- `String.join` peels its head. -/
theorem string_join_cons (x : String) (xs : List String) :
    String.join (x :: xs) = x ++ String.join xs := by
  apply String.ext
  simp [String.data_append]

/-- A field's rendered foreign-key definition is absent exactly when its
foreign reference is. -/
theorem fkdef_none_iff (n : String) (f : Field) :
    Field.foreign_key_definition n f = Option.none ↔ f.foreign = Option.none := by
  unfold Field.foreign_key_definition
  cases hf : f.foreign with
  | none => simp
  | some pr => cases pr; simp

/-- `get_keys` is exactly the concatenation of `", " ++ definition` over
the fields that have a foreign-key definition. -/
theorem get_keys_join (l : List (String × Field)) :
    l.foldl keysStep "" = String.join (l.filterMap (fun nf =>
      (Field.foreign_key_definition nf.1 nf.2).map (fun d => ", " ++ d))) := by
  induction l with
  | nil => rfl
  | cons nf t ih =>
      rw [List.foldl_cons, keys_foldl_hom, ih]
      cases hd : Field.foreign_key_definition nf.1 nf.2 with
      | none =>
          rw [keysStep_none _ _ hd]
          simp only [List.filterMap_cons, hd, Option.map_none']
          apply String.ext
          simp [String.data_append]
      | some d =>
          rw [keysStep_some _ _ _ hd]
          simp only [List.filterMap_cons, hd, Option.map_some']
          rw [string_join_cons]
          apply String.ext
          simp [String.data_append]

/-- Any nonempty rendered foreign-key contribution forces `get_keys` to
begin with `", FOREIGN KEY ("`. -/
theorem keys_starts_fk (l : List (String × Field)) :
    (∃ nf ∈ l, nf.2.foreign ≠ Option.none) →
      ∃ rest, l.foldl keysStep "" = ", FOREIGN KEY (" ++ rest := by
  induction l with
  | nil => rintro ⟨nf, hmem, _⟩; cases hmem
  | cons nf t ih =>
      rintro ⟨nf', hmem, hne⟩
      cases hf : nf.2.foreign with
      | some pr =>
          obtain ⟨tb, fl⟩ := pr
          have hd : Field.foreign_key_definition nf.1 nf.2 =
              Option.some ("FOREIGN KEY (" ++ nf.1 ++ ") references " ++
                tb ++ "(" ++ fl ++ ")") := by
            unfold Field.foreign_key_definition
            rw [hf]
          rw [List.foldl_cons, keysStep_some _ _ _ hd, keys_foldl_hom]
          refine ⟨nf.1 ++ ") references " ++ tb ++ "(" ++ fl ++ ")" ++
            t.foldl keysStep "", ?_⟩
          apply String.ext
          simp [String.data_append]
      | none =>
          have hd : Field.foreign_key_definition nf.1 nf.2 = Option.none :=
            (fkdef_none_iff nf.1 nf.2).mpr hf
          rw [List.foldl_cons, keysStep_none _ _ hd]
          rcases List.mem_cons.mp hmem with heq | hm'
          · exact absurd (heq ▸ hf) hne
          · exact ih ⟨nf', hm', hne⟩

/-- A filter that returns a singleton pins down `find?`. -/
theorem find?_of_filter_singleton {α : Type} {p : α → Bool} (l : List α)
    (a : α) (h : l.filter p = [a]) : l.find? p = Option.some a := by
  induction l with
  | nil => simp at h
  | cons b t ih =>
      cases hp : p b with
      | true =>
          rw [List.filter_cons_of_pos hp] at h
          injection h with h1 h2
          rw [List.find?_cons_of_pos _ hp, h1]
      | false =>
          rw [List.filter_cons_of_neg (by simp [hp])] at h
          rw [List.find?_cons_of_neg _ (by simp [hp])]
          exact ih h

/-- A `filterMap` whose function fires exactly on fields named `pname`
returns a singleton when `pname` occurs exactly once. -/
theorem filterMap_count_one {β : Type} (g : String × Field → Option β)
    (d : β) (pname : String)
    (hg : ∀ nf, g nf = if nf.1 = pname then Option.some d else Option.none) :
    ∀ l : List (String × Field),
      (l.map Prod.fst).count pname = 1 → l.filterMap g = [d] := by
  intro l
  induction l with
  | nil => intro h; simp at h
  | cons nf t ih =>
      intro h
      rw [List.map_cons, List.count_cons] at h
      by_cases he : nf.1 = pname
      · have hc0 : (t.map Prod.fst).count pname = 0 := by
          simpa [he] using h
        have ht : ∀ nf' ∈ t, g nf' = Option.none := by
          intro nf' hm
          rw [hg nf', if_neg ?_]
          intro hc
          exact absurd (List.count_eq_zero.mp hc0)
            (by exact fun hnot => hnot (List.mem_map.mpr ⟨nf', hm, hc⟩))
        rw [List.filterMap_cons_some (by rw [hg nf, if_pos he]),
          List.filterMap_eq_nil_iff.mpr ht]
      · have hc1 : (t.map Prod.fst).count pname = 1 := by
          simpa [he] using h
        rw [List.filterMap_cons_none (by rw [hg nf, if_neg he])]
        exact ih hc1

/-! ## Claim theorems -/

/-- **C1** — after any sequence of prior `filter(condition)` calls, the
statement text `update` renders is identical to the text rendered with no
prior `filter` call: the stored `_filter_str` never influences the SQL.
The text, when the keywords are valid, is exactly
`update <table> set <comma-joined assignments>` — nothing (in particular
no WHERE clause) follows the assignment list.  `filter` itself stores
`str(condition)` on the class and returns the schema class (its schema
component unchanged). -/
theorem update_text_ignores_filter (st : ClassState) (conds : List PyVal)
    (c : PyVal) (kwargs : Inst) :
    (update (conds.foldl filter st) kwargs).map Prod.fst
        = (update st kwargs).map Prod.fst
    ∧ (filter st c).filter_str = c.pyStr
    ∧ (filter st c).schema = st.schema
    ∧ ((update st kwargs).map Prod.fst = Except.error PyError.attributeError
       ∨ (update st kwargs).map Prod.fst = Except.ok
           ("update " ++ st.schema.tablename ++ " set " ++
             String.intercalate ", " (kwargs.map (fun kv =>
               kv.1 ++ " = \"" ++ (Field.value kv.2).pyStr ++ "\"")))) := by
  refine ⟨?_, rfl, rfl, ?_⟩
  · exact update_fst_schema_eq _ st kwargs (foldl_filter_schema conds st)
  · cases update_spec st kwargs with
    | inl h => left; rw [h]; rfl
    | inr h => right; rw [h]; rfl

/-- **C4 counterexample** — a falsy assigned value does *not* render as
the unquoted literal `NULL`: updating `name` to `None` on the `User`
schema renders the assignment `name = "NULL"` (the `NULL` token inside
double quotes), which differs from the claimed `name = NULL`. -/
theorem update_falsy_quoted_counterexample :
    update { schema := users, filter_str := "" } [("name", PyVal.none)]
        = Except.ok ("update users set name = \"NULL\"",
            { schema := users, filter_str := "" })
    ∧ ("update users set name = \"NULL\"" : String)
        ≠ "update users set name = NULL" := by
  exact ⟨rfl, by decide⟩

/-- **C4 (amended)** — every keyword assignment renders as
`<field> = "<x>"` where `x` is the value itself when truthy and the token
`NULL` when falsy: the normalization substitutes `NULL` for falsy values,
but the rendering wraps every normalized value — `NULL` included — in
double quotes. -/
theorem update_assignment_rendering (st : ClassState) (kwargs : Inst) :
    update st kwargs = Except.error PyError.attributeError
    ∨ update st kwargs = Except.ok
        ("update " ++ st.schema.tablename ++ " set " ++
          String.intercalate ", " (kwargs.map (fun kv =>
            kv.1 ++ " = \"" ++
              (if kv.2.truthy then kv.2.pyStr else "NULL") ++ "\"")), st) := by
  have hv : ∀ v : PyVal,
      (Field.value v).pyStr = if v.truthy then v.pyStr else "NULL" := by
    intro v
    unfold Field.value
    split <;> rfl
  cases update_spec st kwargs with
  | inl h => left; exact h
  | inr h =>
      right
      rw [h]
      simp only [hv]

/-- **C3** — `save` serializes every instance attribute into an INSERT
statement (truthy values as double-quoted string literals, falsy values
as the bare token `NULL`); on success it writes the adapter-reported
last-insert identity onto every declared primary-key attribute of the
instance; and a second `save` on the resulting instance again renders an
`insert into ...` statement (a re-insert, never an UPDATE). -/
theorem save_serializes_and_writes_pk (s : Schema) (inst : Inst)
    (adapter adapter2 : Except String Int) (lid : Int) :
    (save s inst adapter).1 =
        "insert into " ++ s.tablename ++ "(" ++
          String.intercalate ", " (inst.map Prod.fst) ++ ") values (" ++
          String.intercalate ", " (inst.map (fun p =>
            if p.2.truthy then "\"" ++ p.2.pyStr ++ "\"" else "NULL")) ++ ")"
    ∧ (∀ (n : String) (f : Field), (n, f) ∈ s.fields → f.primary = true →
        pyGet (save s inst (Except.ok lid)).2 n = Option.some (PyVal.int lid))
    ∧ (∃ rest,
        (save s (save s inst (Except.ok lid)).2 adapter2).1
          = "insert into " ++ rest) := by
  refine ⟨?_, ?_, ?_⟩
  · rw [save_fst]
    rfl
  · intro n f hmem hp
    show pyGet (s.fields.foldl
        (fun i nf => if nf.2.primary then setAttr i nf.1 (PyVal.int lid) else i)
        inst) n = Option.some (PyVal.int lid)
    exact pyGet_pk_foldl lid s.fields inst n f hmem hp
  · refine ⟨s.tablename ++ ("(" ++
      (String.intercalate ", " ((save s inst (Except.ok lid)).2.map Prod.fst) ++
        (") values (" ++
          (String.intercalate ", " ((save s inst (Except.ok lid)).2.map
            (fun p => renderInsertValue p.2)) ++ ")")))), ?_⟩
    rw [save_fst]
    unfold insertQuery
    apply String.ext
    simp [String.data_append]

/-- **C3 witness** — on the demo `User` schema, saving the instance
`User(name='user1', email='e@m.de')` with the adapter reporting
last-insert id 1 leaves the primary-key attribute `id` holding `1`. -/
theorem save_serializes_and_writes_pk_witness :
    pyGet (save users
        (initInstance users [("name", PyVal.str "user1"),
                             ("email", PyVal.str "e@m.de")])
        (Except.ok 1)).2 "id" = Option.some (PyVal.int 1) :=
  (save_serializes_and_writes_pk users
      (initInstance users [("name", PyVal.str "user1"),
                           ("email", PyVal.str "e@m.de")])
      (Except.ok 1) (Except.ok 1) 1).2.1 "id"
    { type := .integer, primary := true, autoincrement := true }
    (by decide) rfl

/-- **C8** — `foreignKeyClausesDDL` (`get_keys`) is the empty string if
and only if no declared field has a foreign reference; otherwise it
starts with `", FOREIGN KEY ("`; and in general it is the concatenation,
over the fields with a foreign reference, of `", " ++` the rendered
`FOREIGN KEY (<column>) references <table>(<field>)` clause. -/
theorem get_keys_empty_iff_shape (s : Schema) :
    (s.get_keys = "" ↔ ∀ nf ∈ s.fields, nf.2.foreign = Option.none)
    ∧ ((∃ nf ∈ s.fields, nf.2.foreign ≠ Option.none) →
        ∃ rest, s.get_keys = ", FOREIGN KEY (" ++ rest)
    ∧ s.get_keys = String.join (s.fields.filterMap (fun nf =>
        (Field.foreign_key_definition nf.1 nf.2).map (fun d => ", " ++ d))) := by
  refine ⟨⟨?_, ?_⟩, keys_starts_fk s.fields, get_keys_join s.fields⟩
  · intro h
    by_contra hc
    push_neg at hc
    obtain ⟨nf, hmem, hne⟩ := hc
    obtain ⟨rest, hr⟩ := keys_starts_fk s.fields ⟨nf, hmem, hne⟩
    have hcontr : ("" : String) = ", FOREIGN KEY (" ++ rest := by
      rw [← h]; exact hr
    have hlen := congrArg String.length hcontr
    simp at hlen
    rw [show (", FOREIGN KEY (" : String).length = 15 from rfl] at hlen
    omega
  · intro h
    have hall : ∀ nf ∈ s.fields,
        (Field.foreign_key_definition nf.1 nf.2).map (fun d => ", " ++ d)
          = Option.none := by
      intro nf hm
      rw [(fkdef_none_iff nf.1 nf.2).mpr (h nf hm)]
      rfl
    have h0 := List.filterMap_eq_nil_iff.mpr hall
    calc s.get_keys
        = String.join (s.fields.filterMap (fun nf =>
            (Field.foreign_key_definition nf.1 nf.2).map
              (fun d => ", " ++ d))) := get_keys_join s.fields
      _ = String.join [] := by rw [h0]
      _ = "" := rfl

/-- **C8 witness** — the demo `Post` schema has the foreign field
`user_id → users.id`, so its rendered clause list starts with
`", FOREIGN KEY ("`. -/
theorem get_keys_empty_iff_shape_witness :
    ∃ rest, posts.get_keys = ", FOREIGN KEY (" ++ rest :=
  (get_keys_empty_iff_shape posts).2.1
    ⟨("user_id", { type := .integer, foreign := Option.some ("users", "id") }),
      by decide, by decide⟩

/-- **C6** — for a parent schema `P` and a child schema `C` declared
after it, where exactly one field of `C` (named `cname`) carries a
foreign reference to the field `pname` of `P` (and nothing references
`P`'s other fields), `join` on `P` yields exactly one descriptor:
`fk_table = C.tablename`, `fk = cname`, `pk_table = P.tablename`,
`pk = pname`. -/
theorem join_single_foreign_reference (P C : Schema) (pname cname : String)
    (cf : Field)
    (hC : C.fields.filter (fun nf => nf.2.refsTable P.tablename) = [(cname, cf)])
    (hcf : cf.foreign = Option.some (P.tablename, pname))
    (hP : ∀ nf ∈ P.fields, nf.2.refsTable P.tablename = false)
    (hcount : (P.fields.map Prod.fst).count pname = 1) :
    Schema.join [P, C] P = [⟨C.tablename, cname, P.tablename, pname⟩] := by
  have hPpred : ∀ fname, P.fields.any
      (fun nf => nf.2.foreign == Option.some (P.tablename, fname)) = false := by
    intro fname
    rw [List.any_eq_false]
    intro nf hm hpx
    have hf : nf.2.foreign = Option.some (P.tablename, fname) := by
      simpa using hpx
    have href := hP nf hm
    unfold Field.refsTable at href
    rw [hf] at href
    simp at href
  have hCmem : (cname, cf) ∈ C.fields := by
    have hmf : (cname, cf) ∈ C.fields.filter
        (fun nf => nf.2.refsTable P.tablename) := by
      rw [hC]
      exact List.mem_singleton.mpr rfl
    exact List.mem_of_mem_filter hmf
  have hCany_pos : C.fields.any
      (fun nf => nf.2.foreign == Option.some (P.tablename, pname)) = true := by
    rw [List.any_eq_true]
    exact ⟨(cname, cf), hCmem, by simp [hcf]⟩
  have hCany_neg : ∀ fname, fname ≠ pname → C.fields.any
      (fun nf => nf.2.foreign == Option.some (P.tablename, fname)) = false := by
    intro fname hne
    rw [List.any_eq_false]
    intro nf hm hpx
    have hf : nf.2.foreign = Option.some (P.tablename, fname) := by
      simpa using hpx
    have href : nf.2.refsTable P.tablename = true := by
      unfold Field.refsTable
      rw [hf]
      simp
    have hmemf : nf ∈ C.fields.filter
        (fun nf => nf.2.refsTable P.tablename) :=
      List.mem_filter.mpr ⟨hm, href⟩
    rw [hC, List.mem_singleton] at hmemf
    rw [hmemf] at hf
    rw [hcf] at hf
    exact hne (by injection hf with h1; exact (Prod.mk.injEq _ _ _ _ ▸ h1).2.symm ▸ rfl)
  have hfk : ∀ fname, fkOf [P, C] P.tablename fname
      = if fname = pname then Option.some C else Option.none := by
    intro fname
    unfold fkOf
    by_cases he : fname = pname
    · rw [if_pos he, he]
      simp only [List.filter_cons, List.filter_nil, hPpred pname, hCany_pos]
      rfl
    · rw [if_neg he]
      simp only [List.filter_cons, List.filter_nil, hPpred fname,
        hCany_neg fname he]
      rfl
  have hgfbt : C.get_foreign_field_by_table P.tablename
      = Option.some (cname, cf) :=
    find?_of_filter_singleton C.fields (cname, cf) hC
  have hg : ∀ nf : String × Field, joinStep [P, C] P nf
      = if nf.1 = pname
        then Option.some ⟨C.tablename, cname, P.tablename, pname⟩
        else Option.none := by
    intro nf
    unfold joinStep
    rw [hfk nf.1]
    by_cases he : nf.1 = pname
    · rw [if_pos he, if_pos he]
      simp only [hgfbt]
      rw [he]
    · rw [if_neg he, if_neg he]
  exact filterMap_count_one (joinStep [P, C] P)
    ⟨C.tablename, cname, P.tablename, pname⟩ pname hg P.fields hcount

/-- **C6 witness** — for the demo schemas `users` (parent) and `posts`
(child, `user_id → users.id`), `join` on `users` yields exactly the
descriptor `(posts, user_id, users, id)`. -/
theorem join_single_foreign_reference_witness :
    Schema.join [users, posts] users
      = [⟨"posts", "user_id", "users", "id"⟩] :=
  join_single_foreign_reference users posts "id" "user_id"
    { type := .integer, foreign := Option.some ("users", "id") }
    (by decide) rfl (by decide) (by decide)

/-- **C10** — on a schema with no inbound foreign reference (no declared
field of the schema is the target of another schema's foreign reference),
`get` raises `UnboundLocalError` — the local `fk_table` is read before
ever being assigned — instead of rendering a SELECT over the schema's
own columns. -/
theorem get_without_inbound_reference_raises (db : List Schema)
    (cls : Schema) (args : List String)
    (h : ∀ nf ∈ cls.fields, fkOf db cls.tablename nf.1 = Option.none) :
    get db cls args = Except.error PyError.unboundLocalError := by
  unfold get
  rw [List.filterMap_eq_nil_iff.mpr h]
  rfl

/-- **C10 witness** — in the demo database, no schema references `posts`,
so `Post.get('id')` raises the unbound-local error. -/
theorem get_without_inbound_reference_raises_witness :
    get demoDb posts ["id"] = Except.error PyError.unboundLocalError :=
  get_without_inbound_reference_raises demoDb posts ["id"] (by decide)

/-- **C9** — `Field.__init__` fails with the configuration error exactly
when the column type is absent; when a type is supplied it succeeds and
stores the given flags, whose defaults are `primary = false`,
`autoincrement = false`, `not_null = true`, `foreign = none`,
`default_value = none`. -/
theorem field_make_requires_type :
    (∀ (p a nn : Bool) (fr : Option (String × String)) (dv : PyVal),
        Field.make Option.none p a nn fr dv =
          Except.error "Please, specify type of column")
    ∧ (∀ t : ColType,
        Field.make (Option.some t) = Except.ok
          { type := t, primary := false, autoincrement := false,
            not_null := true, foreign := Option.none,
            default_value := PyVal.none })
    ∧ (∀ (t : ColType) (p a nn : Bool) (fr : Option (String × String)) (dv : PyVal),
        Field.make (Option.some t) p a nn fr dv = Except.ok
          { type := t, primary := p, autoincrement := a, not_null := nn,
            foreign := fr, default_value := dv }) :=
  ⟨fun _ _ _ _ _ => rfl, fun _ => rfl, fun _ _ _ _ _ _ => rfl⟩

/-- **C7** — when the adapter raises during `save`'s execute/commit, `save`
returns normally (the exception is caught and reported) and the instance
`__dict__` is exactly the one before the call: no attribute, in
particular no primary-key attribute, is written. -/
theorem save_error_leaves_instance (s : Schema) (inst : Inst) (e : String) :
    save s inst (Except.error e) = (insertQuery s inst, inst) := rfl

/-- **C2** — the claim says `delete` renders `DELETE FROM <table>` and
executes it.  The code instead reads the template through a bare name that
is not in scope, so every call raises `NameError` before rendering
anything; in particular it never produces the claimed statement. -/
theorem delete_raises_nameError (s : Schema) :
    delete s = Except.error PyError.nameError :=
  rfl

/-- **C5 counterexample** — for the two-field schema `A Integer`
(primary, autoincrement) and `B Varchar(100)` (defaults), the rendered
definitions do *not* equal the claimed text with empty flag tokens
collapsed: the plain field `B` keeps the template's separating spaces for
its two empty flag slots. -/
theorem field_definitions_not_collapsed :
    Schema.get_field_definitions
        { tablename := "t",
          fields :=
            [("A", { type := .integer, primary := true, autoincrement := true }),
             ("B", { type := .varchar 100 })] } ≠
      "A Integer NOT NULL PRIMARY KEY AUTOINCREMENT, B Varchar(100) NOT NULL" := by
  decide

/-- **C5 (amended)** — for a schema declaring exactly the fields `A`
(primary, autoincrement) and `B` (flag defaults),
`get_field_definitions` renders
`"A <typeA> NOT NULL PRIMARY KEY AUTOINCREMENT, B <typeB> NOT NULL  "`:
the fragments are joined by `", "` with the trailing separator trimmed,
but empty flag tokens are *not* collapsed, so `B`'s fragment ends in the
two spaces separating its empty `PRIMARY KEY` and `AUTOINCREMENT` slots. -/
theorem field_definitions_two_fields (t nA nB : String) (tA tB : ColType) :
    Schema.get_field_definitions
        { tablename := t,
          fields :=
            [(nA, { type := tA, primary := true, autoincrement := true }),
             (nB, { type := tB })] } =
      nA ++ " " ++ tA.render ++ " NOT NULL PRIMARY KEY AUTOINCREMENT, " ++
        nB ++ " " ++ tB.render ++ " NOT NULL  " := by
  simp only [Schema.get_field_definitions, List.foldl, Field.definition]
  rw [mk_data_dropLast_dropLast]
  apply String.ext
  simp [String.data_append]

end Orm
